import Mathlib

/-!
Verification of the grafana-react dashboard compiler core.

This file gives a shallow embedding, in Lean 4, of the parts of the
renderer (`src/lib/renderer` — the implementation concatenated into
`src/lib/renderer.test.ts`) and of the value normalizers
(`src/lib/utils.ts`) that the specification's claims are about, and
proves or refutes each claim against that embedding.

Conventions used throughout:
* JS numbers are modelled as `Int` (all quantities involved are integers);
* JS `undefined` for an optional property is `Option.none`;
* JS objects used as string-keyed maps are association lists in insertion
  order (JS object keys are unique; the operations below agree with JS
  semantics on unique-key maps);
* fallible code (`throw new Error(...)`) returns `Except String`.
-/

namespace GrafanaReact

/-! ## Defaults stack (`getCurrentDefaults`, renderer lines 3017–3051)

A value stored in a defaults layer.  `vnull` is JS `null` (which is a
*defined* value, distinct from `undefined` = absence from the map). -/

inductive DefVal where
  | vnull : DefVal
  | vstr : String → DefVal
  | vnum : Int → DefVal
  | vbool : Bool → DefVal
  deriving DecidableEq, Repr

/-- A flat string-keyed map of defined values, in insertion order. -/
abbrev DefMap := List (String × DefVal)

/-- JS property write `m[k] = v`: overwrite the (unique) existing binding in
place, or append a new one. -/
def setKey : DefMap → String → DefVal → DefMap
  | [], k, v => [(k, v)]
  | p :: rest, k, v => if p.1 = k then (k, v) :: rest else p :: setKey rest k v

/-- JS `delete m[k]`. -/
def delKey : DefMap → String → DefMap
  | [], _ => []
  | p :: rest, k => if p.1 = k then delKey rest k else p :: delKey rest k

/-- JS property read `m[k]` (as an `Option`; `none` = `undefined`). -/
def lookupKey : DefMap → String → Option DefVal
  | [], _ => none
  | p :: rest, k => if p.1 = k then some p.2 else lookupKey rest k

/-- One layer of the defaults stack (`ExtendedPanelDefaults`):
the global key/value entries (every key other than `panels` whose value is
not `undefined`), and the `panels` secondary map from panel-type name to a
kind-specific override map. -/
structure DefaultsLayer where
  global : DefMap
  panels : List (String × DefMap)
  deriving DecidableEq, Repr

/-- Read `layer.panels?.[panelType]`. -/
def lookupPanels : List (String × DefMap) → String → Option DefMap
  | [], _ => none
  | p :: rest, k => if p.1 = k then some p.2 else lookupPanels rest k

/-- The global pass of `getCurrentDefaults` for one layer: every defined
global key overwrites the running result (note: a `null` value is defined,
so it is *assigned*, not deleted, here). -/
def applyGlobals : DefMap → DefMap → DefMap
  | m, [] => m
  | m, kv :: g => applyGlobals (setKey m kv.1 kv.2) g

/-- The kind-specific pass of `getCurrentDefaults` for one layer's override
map: `null` deletes the key from the running result, any other defined value
overwrites it. -/
def applyOverrides : DefMap → DefMap → DefMap
  | m, [] => m
  | m, kv :: ov =>
      applyOverrides (if kv.2 = DefVal.vnull then delKey m kv.1 else setKey m kv.1 kv.2) ov

/-- First loop of `getCurrentDefaults`: fold the global entries of every
layer, oldest to newest, over the running result. -/
def globalFold : DefMap → List DefaultsLayer → DefMap
  | m, [] => m
  | m, layer :: rest => globalFold (applyGlobals m layer.global) rest

/-- Second loop of `getCurrentDefaults`: fold each layer's kind-specific
override map for the requested panel type, oldest to newest. -/
def specFold (pt : String) : DefMap → List DefaultsLayer → DefMap
  | m, [] => m
  | m, layer :: rest =>
      specFold pt
        (match lookupPanels layer.panels pt with
         | some ov => applyOverrides m ov
         | none => m) rest

/-- `getCurrentDefaults(ctx, panelType?)` (renderer lines 3017–3051): merge
all layers' global entries, then — only when a panel type is given — apply
every layer's kind-specific overrides for that type. -/
def getCurrentDefaults (stack : List DefaultsLayer) (panelType : Option String) : DefMap :=
  let merged := globalFold [] stack
  match panelType with
  | none => merged
  | some pt => specFold pt merged stack

/-- The last (newest) binding of key `k` in one map, if any. -/
def lastBinding : DefMap → String → Option DefVal
  | [], _ => none
  | kv :: rest, k =>
      match lastBinding rest k with
      | some v => some v
      | none => if kv.1 = k then some kv.2 else none

/-- The newest global binding of `k` across the whole stack. -/
def lastGlobalBinding : List DefaultsLayer → String → Option DefVal
  | [], _ => none
  | layer :: rest, k =>
      match lastGlobalBinding rest k with
      | some v => some v
      | none => lastBinding layer.global k

/-- The newest kind-specific binding of `k` for panel type `pt` across the
whole stack. -/
def lastSpecificBinding : List DefaultsLayer → String → String → Option DefVal
  | [], _, _ => none
  | layer :: rest, pt, k =>
      match lastSpecificBinding rest pt k with
      | some v => some v
      | none =>
          match lookupPanels layer.panels pt with
          | some ov => lastBinding ov k
          | none => none

/-! ## Value normalizers (`src/lib/utils.ts`) -/

/-- The `colorMap` object literal of `normalizeColor` (utils.ts lines
110–124), as the association list of its entries. -/
def colorTable : List (String × String) :=
  [("yellow", "#EAB839"), ("y", "#EAB839"),
   ("green", "green"), ("g", "green"),
   ("red", "red"), ("r", "red"),
   ("orange", "orange"), ("o", "orange"),
   ("blue", "blue"), ("b", "blue"),
   ("transparent", "transparent"), ("t", "transparent"),
   ("text", "text")]

/-- JS object property read on a string-keyed table. -/
def tableLookup : List (String × String) → String → Option String
  | [], _ => none
  | p :: rest, k => if p.1 = k then some p.2 else tableLookup rest k

/-- `normalizeColor` (utils.ts lines 109–126): `colorMap[color] ?? color`. -/
def normalizeColor (color : String) : String :=
  match tableLookup colorTable color with
  | some v => v
  | none => color

/-- The typed input forms of `normalizeThresholds` (utils.ts lines 133–170):
absent, an object mapping numeric breakpoints to colors (`mapSpec`, in
insertion order), or a list of `(breakpoint, color)` pairs (`pairsSpec`). -/
inductive ThresholdSpec where
  | absent : ThresholdSpec
  | mapSpec : List (Int × String) → ThresholdSpec
  | pairsSpec : List (Int × String) → ThresholdSpec
  deriving DecidableEq, Repr

/-- One output step: `{ value: number | null, color }`. -/
structure ThresholdStep where
  value : Option Int
  color : String
  deriving DecidableEq, Repr

/-- Stable insertion of one entry into a list sorted ascending by numeric
key — the effect of the JS `sort((a, b) => a[0] - b[0])` on the unique-key
entry lists produced by `Object.entries`. -/
def insertByKey (p : Int × String) : List (Int × String) → List (Int × String)
  | [] => [p]
  | q :: rest => if p.1 < q.1 then p :: q :: rest else q :: insertByKey p rest

def sortByKey (l : List (Int × String)) : List (Int × String) :=
  l.foldr insertByKey []

/-- `normalizeThresholds(spec, baseColor)` (utils.ts lines 133–170): a
sentinel base step, then — for the object form — the entries sorted
ascending by numeric key, or — for the array form — the pairs in given
order, every color passed through `normalizeColor`. -/
def normalizeThresholds (spec : ThresholdSpec) (baseColor : String) : List ThresholdStep :=
  let base : ThresholdStep := ⟨none, normalizeColor baseColor⟩
  match spec with
  | .absent => [base]
  | .mapSpec entries =>
      base :: (sortByKey entries).map (fun p => ⟨some p.1, normalizeColor p.2⟩)
  | .pairsSpec entries =>
      base :: entries.map (fun p => ⟨some p.1, normalizeColor p.2⟩)

/-- The non-sentinel steps of a step list appear in ascending order of
numeric value. -/
def stepsAscending (steps : List ThresholdStep) : Prop :=
  List.Chain' (fun a b => a ≤ b) (steps.filterMap ThresholdStep.value)

instance (steps : List ThresholdStep) : Decidable (stepsAscending steps) :=
  inferInstanceAs
    (Decidable (List.Chain' (fun a b => a ≤ b) (steps.filterMap ThresholdStep.value)))

/-! Typed models of the remaining normalizers, for the idempotence claim.
Each `...AsSpec` definition is the identity of JS: it feeds the function's
returned value back as an input value. -/

/-- A legend config object as authored (`LegendConfig`): every field
optional. -/
structure LegendIn where
  placement : Option String
  displayMode : Option String
  calcs : Option (List String)
  sortBy : Option String
  sortDesc : Option Bool
  width : Option Int
  deriving DecidableEq, Repr

/-- Input to `normalizeLegend` (utils.ts lines 175–192). -/
inductive LegendSpec where
  | absent : LegendSpec
  | shorthand : String → LegendSpec
  | config : LegendIn → LegendSpec
  deriving DecidableEq, Repr

/-- The normalized legend object. -/
structure LegendOut where
  placement : String
  displayMode : String
  calcs : List String
  sortBy : Option String
  sortDesc : Option Bool
  width : Option Int
  deriving DecidableEq, Repr

def normalizeLegend : LegendSpec → LegendOut
  | .absent => ⟨"bottom", "list", [], none, none, none⟩
  | .shorthand p => ⟨p, "table", ["mean", "max"], none, none, none⟩
  | .config c =>
      ⟨c.placement.getD "bottom", c.displayMode.getD "table", c.calcs.getD [],
       c.sortBy, c.sortDesc, c.width⟩

def legendOutAsSpec (o : LegendOut) : LegendSpec :=
  .config ⟨some o.placement, some o.displayMode, some o.calcs, o.sortBy, o.sortDesc, o.width⟩

structure TooltipIn where
  mode : Option String
  sort : Option String
  maxHeight : Option Int
  maxWidth : Option Int
  deriving DecidableEq, Repr

/-- Input to `normalizeTooltip` (utils.ts lines 210–225). -/
inductive TooltipSpec where
  | absent : TooltipSpec
  | shorthand : String → TooltipSpec
  | config : TooltipIn → TooltipSpec
  deriving DecidableEq, Repr

structure TooltipOut where
  mode : String
  sort : String
  maxHeight : Option Int
  maxWidth : Option Int
  deriving DecidableEq, Repr

def normalizeTooltip : TooltipSpec → TooltipOut
  | .absent => ⟨"multi", "none", none, none⟩
  | .shorthand m => ⟨m, "none", none, none⟩
  | .config c => ⟨c.mode.getD "multi", c.sort.getD "none", c.maxHeight, c.maxWidth⟩

def tooltipOutAsSpec (o : TooltipOut) : TooltipSpec :=
  .config ⟨some o.mode, some o.sort, o.maxHeight, o.maxWidth⟩

structure ReduceIn where
  calcs : Option (List String)
  fields : Option String
  values : Option Bool
  limit : Option Int
  deriving DecidableEq, Repr

/-- Input to `normalizeReduceOptions` (utils.ts lines 230–243). -/
inductive ReduceSpec where
  | absent : ReduceSpec
  | config : ReduceIn → ReduceSpec
  deriving DecidableEq, Repr

structure ReduceOut where
  calcs : List String
  fields : String
  values : Bool
  limit : Option Int
  deriving DecidableEq, Repr

def normalizeReduceOptions : ReduceSpec → ReduceOut
  | .absent => ⟨[], "", false, none⟩
  | .config c => ⟨c.calcs.getD [], c.fields.getD "", c.values.getD false, c.limit⟩

def reduceOutAsSpec (o : ReduceOut) : ReduceSpec :=
  .config ⟨some o.calcs, some o.fields, some o.values, o.limit⟩

structure LineStyleIn where
  fill : Option String
  dash : Option (List Int)
  deriving DecidableEq, Repr

/-- Input to `normalizeLineStyle` (utils.ts lines 249–262). -/
inductive LineStyleSpec where
  | absent : LineStyleSpec
  | shorthand : String → LineStyleSpec
  | config : LineStyleIn → LineStyleSpec
  deriving DecidableEq, Repr

def normalizeLineStyle : LineStyleSpec → Option LineStyleIn
  | .absent => none
  | .shorthand f => some ⟨some f, none⟩
  | .config c => some ⟨c.fill, c.dash⟩

def lineStyleOutAsSpec : Option LineStyleIn → LineStyleSpec
  | none => .absent
  | some c => .config c

structure ScaleIn where
  type : Option String
  log : Option Int
  linearThreshold : Option Int
  deriving DecidableEq, Repr

/-- Input to `normalizeScaleDistribution` (utils.ts lines 267–278). -/
inductive ScaleSpec where
  | absent : ScaleSpec
  | config : ScaleIn → ScaleSpec
  deriving DecidableEq, Repr

structure ScaleOut where
  type : String
  log : Option Int
  linearThreshold : Option Int
  deriving DecidableEq, Repr

def normalizeScaleDistribution : ScaleSpec → ScaleOut
  | .absent => ⟨"linear", none, none⟩
  | .config c => ⟨c.type.getD "linear", c.log, c.linearThreshold⟩

def scaleOutAsSpec (o : ScaleOut) : ScaleSpec :=
  .config ⟨some o.type, o.log, o.linearThreshold⟩

/-! ## Dynamic (untyped) model of `normalizeThresholds`

The threshold normalizer's output is a list of `{value, color}` records,
which is not among its typed input forms; to even state
`normalize(normalize(x))` one must run the function on its own output under
JS runtime semantics.  `JsVal` models the JS values involved. -/

inductive JsVal where
  | undefined : JsVal
  | vnull : JsVal
  | vnan : JsVal
  | vbool : Bool → JsVal
  | vnum : Int → JsVal
  | vstr : String → JsVal
  | varr : List JsVal → JsVal
  | vobj : List (String × JsVal) → JsVal

/-- JS truthiness. -/
def truthy : JsVal → Bool
  | .undefined => false
  | .vnull => false
  | .vnan => false
  | .vbool b => b
  | .vnum n => n != 0
  | .vstr s => s != ""
  | .varr _ => true
  | .vobj _ => true

def lookupField : List (String × JsVal) → String → Option JsVal
  | [], _ => none
  | p :: rest, k => if p.1 = k then some p.2 else lookupField rest k

/-- JS indexing `v[i]`: array element, or object property named by the
decimal string of `i`; `undefined` otherwise. -/
def getIdx (v : JsVal) (i : Nat) : JsVal :=
  match v with
  | .varr items => items.getD i .undefined
  | .vobj fields => (lookupField fields (toString i)).getD .undefined
  | _ => .undefined

/-- JS `Number(k)` on the strings occurring as threshold-map keys (integer
literals; anything unparseable is `NaN`). -/
def jsNumber (s : String) : JsVal :=
  match s.toInt? with
  | some n => .vnum n
  | none => .vnan

/-- The comparator `(a, b) => a[0] - b[0]` as a strict order on keys;
comparisons involving `NaN` are never negative (JS leaves the order of such
elements unspecified; this model keeps them in place). -/
def keyLt : JsVal → JsVal → Bool
  | .vnum a, .vnum b => a < b
  | _, _ => false

def insertEntry (p : JsVal × JsVal) : List (JsVal × JsVal) → List (JsVal × JsVal)
  | [] => [p]
  | q :: rest => if keyLt p.1 q.1 then p :: q :: rest else q :: insertEntry p rest

def sortEntries (l : List (JsVal × JsVal)) : List (JsVal × JsVal) :=
  l.foldr insertEntry []

/-- `normalizeColor` lifted to runtime values: only strings are looked up in
the color table (any other value's property key misses the table and falls
back to the value itself). -/
def normalizeColorJs : JsVal → JsVal
  | .vstr s => .vstr (normalizeColor s)
  | v => v

/-- `normalizeThresholds` (utils.ts lines 133–170) over runtime values:
falsy input yields just the base step; a non-array object goes through
`Object.entries`/`Number`/sort; an array is treated as a pair list via
`item[0]`/`item[1]`; anything else yields just the base step. -/
def normalizeThresholdsJs (spec : JsVal) (baseColor : String) : JsVal :=
  let base : JsVal := .vobj [("value", .vnull), ("color", .vstr (normalizeColor baseColor))]
  if truthy spec = false then .varr [base]
  else
    match spec with
    | .vobj fields =>
        let entries := sortEntries (fields.map (fun kv => (jsNumber kv.1, kv.2)))
        .varr (base :: entries.map (fun kv =>
          JsVal.vobj [("value", kv.1), ("color", normalizeColorJs kv.2)]))
    | .varr items =>
        .varr (base :: items.map (fun item =>
          JsVal.vobj [("value", getIdx item 0), ("color", normalizeColorJs (getIdx item 1))]))
    | _ => .varr [base]

/-- Number of elements when the value is an array. -/
def jsArrLength : JsVal → Nat
  | .varr items => items.length
  | _ => 0

/-! ## Reference ids and target extraction -/

/-- Drop leading whitespace characters. -/
def dropLeadingWs : List Char → List Char
  | [] => []
  | c :: rest => if c.isWhitespace then dropLeadingWs rest else c :: rest

/-- JS `String.prototype.trim` (strip leading and trailing whitespace),
modelled over the character list. -/
def jsTrim (s : String) : String :=
  String.mk ((dropLeadingWs (dropLeadingWs s.data).reverse).reverse)

/-- `nextRefId(counter)` (utils.ts lines 197–204). -/
def nextRefId (counter : Nat) : String :=
  if counter < 26 then String.mk [Char.ofNat (65 + counter)]
  else String.mk [Char.ofNat (65 + (counter / 26 - 1)), Char.ofNat (65 + counter % 26)]

/-- A child node of a panel as seen by `extractTargets` (renderer lines
3057–3099): a bare string, a `Query` element (with optional explicit
`refId` and the text content of its children), or anything else (skipped). -/
inductive PanelChild where
  | text : String → PanelChild
  | query : Option String → String → PanelChild
  | other : PanelChild
  deriving DecidableEq, Repr

/-- An emitted query target (only the fields the claims concern). -/
structure Target where
  refId : String
  expr : String
  deriving DecidableEq, Repr

/-- The loop body of `extractTargets`, threading the `refIdCounter`:
a nonempty string child takes the next automatic id (advancing the
counter); a `Query` child with text uses its explicit `refId` if present —
`??` short-circuits, so the counter is not advanced — and otherwise takes
the next automatic id. -/
def extractTargetsGo : List PanelChild → Nat → List Target × Nat
  | [], counter => ([], counter)
  | .text s :: rest, counter =>
      let expr := jsTrim s
      if expr = "" then extractTargetsGo rest counter
      else
        let result := extractTargetsGo rest (counter + 1)
        (⟨nextRefId counter, expr⟩ :: result.1, result.2)
  | .query refId raw :: rest, counter =>
      let expr := jsTrim raw
      if expr = "" then extractTargetsGo rest counter
      else
        match refId with
        | some r =>
            let result := extractTargetsGo rest counter
            (⟨r, expr⟩ :: result.1, result.2)
        | none =>
            let result := extractTargetsGo rest (counter + 1)
            (⟨nextRefId counter, expr⟩ :: result.1, result.2)
  | .other :: rest, counter => extractTargetsGo rest counter

/-- `extractTargets` (renderer lines 3057–3099), starting the counter at 0. -/
def extractTargets (children : List PanelChild) : List Target :=
  (extractTargetsGo children 0).1

/-- How many targets of a child list are emitted *without* an explicit
`refId` (nonempty strings, and nonempty queries lacking `refId`). -/
def autoCount : List PanelChild → Nat
  | [] => 0
  | .text s :: rest => (if jsTrim s = "" then 0 else 1) + autoCount rest
  | .query refId raw :: rest =>
      (if jsTrim raw = "" then 0
       else match refId with
         | some _ => 0
         | none => 1) + autoCount rest
  | .other :: rest => autoCount rest

/-! ## Grid layout engine and tree walker (renderer lines 3105–3163 and
4588–5040)

The layout-relevant portion of the walker.  Every one of the ~25 visual
panel kinds positions itself through the same path
(`build*Panel` → `buildBasePanel` → `addPanel` → `updatePosition`), so a
single `panel` element stands for any visual panel kind; the kind-specific
configuration building is layout-irrelevant and omitted.  The raw `extend`
deep-merge escape hatch is modelled by its effect on the record's
rectangle: `deepMerge` recurses into the nested `gridPos` object and
replaces each supplied numeric field (`ExtendPatch`). -/

structure GridPos where
  x : Int
  y : Int
  w : Int
  h : Int
  deriving DecidableEq, Repr

/-- An emitted panel record (the fields the layout claims concern).
`isRow` marks the structural row header records. -/
structure Panel where
  id : Nat
  title : String
  isRow : Bool
  gridPos : GridPos
  deriving DecidableEq, Repr

/-- The `RenderContext` of the renderer, restricted to its layout state:
the id counter, the cursor, the row padding in effect, and the output
panel list. -/
structure RenderContext where
  panelId : Nat
  currentX : Int
  currentY : Int
  rowMaxY : Int
  rowPaddingLeft : Int
  rowPaddingRight : Int
  panels : List Panel
  deriving DecidableEq, Repr

/-- The layout-relevant content of a panel's raw `extend` override: an
object deep-merged over the built record, whose `gridPos` member (when
present) has each supplied field replace the computed one. -/
structure ExtendPatch where
  x : Option Int
  y : Option Int
  w : Option Int
  h : Option Int
  deriving DecidableEq, Repr

/-- The input element tree (layout-relevant node kinds): a visual panel
(any kind) with its optional `width`/`height`/`marginLeft`/`extend` props, a `Row`
with its optional padding props, a `Container` with optional fixed `width`
and `fill` flag, and a `Defaults` scope (which recurses into its children
without touching the cursor). -/
inductive Element where
  | panel : String → Option Int → Option Int → Option Int → Option ExtendPatch → Element
  | row : String → Option Int → Option Int → Option Int → List Element → Element
  | container : Option Int → Bool → List Element → Element
  | defaultsScope : List Element → Element
  deriving Repr

/-- `buildBasePanel` (renderer lines 3105–3163), layout part: allocate the
next id, default `width`/`height`/`marginLeft` to 12/8/0, wrap to
`(rowPaddingLeft, rowMaxY)` when the panel (with margin) does not fit the
available width, and position at `(currentX + marginLeft, currentY)`.
Returns the built panel and the updated context. -/
def buildBasePanel (ctx : RenderContext) (title : String)
    (width height marginLeft : Option Int) : Panel × RenderContext :=
  let id := ctx.panelId
  let ctx1 := { ctx with panelId := ctx.panelId + 1 }
  let w := width.getD 12
  let h := height.getD 8
  let m := marginLeft.getD 0
  let availableWidth := 24 - ctx1.rowPaddingLeft - ctx1.rowPaddingRight
  let effectiveX := ctx1.currentX - ctx1.rowPaddingLeft
  let ctx2 :=
    if effectiveX + m + w > availableWidth then
      { ctx1 with currentX := ctx1.rowPaddingLeft, currentY := ctx1.rowMaxY }
    else ctx1
  (⟨id, title, false, ⟨ctx2.currentX + m, ctx2.currentY, w, h⟩⟩, ctx2)

/-- `updatePosition` (renderer lines 5012–5017): advance the cursor past
the panel and raise the row's max bottom edge. -/
def updatePosition (ctx : RenderContext) (panel : Panel) : RenderContext :=
  { ctx with
    currentX := panel.gridPos.x + panel.gridPos.w,
    rowMaxY := max ctx.rowMaxY (panel.gridPos.y + panel.gridPos.h) }

/-- Effect of `deepMerge(panel, props.extend)` on the record's rectangle:
both `gridPos` objects are plain objects, so the merge recurses and each
field supplied by the patch replaces the computed value in place. -/
def applyExtend : Option ExtendPatch → Panel → Panel
  | none, p => p
  | some e, p =>
      { p with gridPos :=
          ⟨e.x.getD p.gridPos.x, e.y.getD p.gridPos.y,
           e.w.getD p.gridPos.w, e.h.getD p.gridPos.h⟩ }

/-- `addPanel` (renderer lines 5023–5036): deep-merge the `extend` prop (if
any) into the built record, push it, and update the position from the
merged record. -/
def addPanel (ctx : RenderContext) (panel : Panel) (extend : Option ExtendPatch) :
    RenderContext :=
  let merged := applyExtend extend panel
  updatePosition { ctx with panels := ctx.panels ++ [merged] } merged

/-- `buildRowPanel` (renderer lines 4589–4600): the full-width structural
row record at `(0, currentY)` (id allocation is threaded by the caller). -/
def buildRowPanel (ctx : RenderContext) (title : String) : Panel :=
  ⟨ctx.panelId, title, true, ⟨0, ctx.currentY, 24, 1⟩⟩

/-- Row entry (renderer lines 4669–4689): finalize any in-progress row,
emit the structural row record, advance `currentY` past it, reset
`rowMaxY`, then install the row's padding (`paddingLeft`/`paddingRight`,
each defaulting to the single `padding` prop, then to 0) and start the
cursor at the left padding. -/
def rowEntry (ctx : RenderContext) (title : String)
    (padding paddingLeft paddingRight : Option Int) : RenderContext :=
  let ctx0 := { ctx with
    currentY := ctx.rowMaxY, currentX := 0, rowPaddingLeft := 0, rowPaddingRight := 0 }
  let rowPanel := buildRowPanel ctx0 title
  let ctx1 := { ctx0 with
    panelId := ctx0.panelId + 1,
    panels := ctx0.panels ++ [rowPanel],
    currentY := ctx0.currentY + 1 }
  let ctx2 := { ctx1 with rowMaxY := ctx1.currentY }
  let l := (paddingLeft <|> padding).getD 0
  let r := (paddingRight <|> padding).getD 0
  { ctx2 with rowPaddingLeft := l, rowPaddingRight := r, currentX := l }

/-- Row exit (renderer lines 4698–4701): finalize the row's vertical
extent and clear the padding. -/
def rowExit (ctx : RenderContext) : RenderContext :=
  { ctx with
    currentY := ctx.rowMaxY, currentX := 0, rowPaddingLeft := 0, rowPaddingRight := 0 }

/-- Container width determination (renderer lines 4707–4717): a truthy
`fill` takes the remaining width from `currentX` to `24 − rowPaddingRight`
(even when a fixed `width` is also supplied); otherwise a supplied fixed
`width` is used; otherwise the compile aborts. -/
def containerWidthOf (width : Option Int) (fill : Bool) (ctx : RenderContext) :
    Except String Int :=
  if fill then Except.ok (24 - ctx.rowPaddingRight - ctx.currentX)
  else
    match width with
    | some w => Except.ok w
    | none => Except.error "Container must have either width or fill prop"

/-- The container-exit validation error message (renderer lines 4753–4755). -/
def widthErrorMsg (title : String) (w cw : Int) : String :=
  "Panel \"" ++ title ++ "\" has width " ++ toString w ++
    " which exceeds container width " ++ toString cw

/-- Translation of one child record by the container's origin. -/
def translatePanel (cx cy : Int) (p : Panel) : Panel :=
  { p with gridPos := { p.gridPos with x := p.gridPos.x + cx, y := p.gridPos.y + cy } }

/-- Container exit loop (renderer lines 4748–4762): validate each child
record's width against the container width — aborting with a hard error
naming the offending panel — and translate it by the container origin. -/
def translatePanels : List Panel → Int → Int → Int → Except String (List Panel)
  | [], _, _, _ => Except.ok []
  | p :: rest, cx, cy, cw =>
      if p.gridPos.w > cw then Except.error (widthErrorMsg p.title p.gridPos.w cw)
      else
        match translatePanels rest cx cy cw with
        | Except.ok moved => Except.ok (translatePanel cx cy p :: moved)
        | Except.error e => Except.error e

mutual

/-- `processElement` (renderer lines 4606–5010), layout-relevant cases. -/
def processElement : Element → RenderContext → Except String RenderContext
  | Element.panel title width height marginLeft extend, ctx =>
      let built := buildBasePanel ctx title width height marginLeft
      Except.ok (addPanel built.2 built.1 extend)
  | Element.row title padding paddingLeft paddingRight children, ctx =>
      match processChildren children (rowEntry ctx title padding paddingLeft paddingRight) with
      | Except.ok ctx2 => Except.ok (rowExit ctx2)
      | Except.error e => Except.error e
  | Element.container width fill children, ctx =>
      match containerWidthOf width fill ctx with
      | Except.error e => Except.error e
      | Except.ok cw =>
          let before := ctx.panels.length
          let inner := { ctx with
            currentX := 0, currentY := 0, rowMaxY := 0,
            rowPaddingLeft := 0, rowPaddingRight := 24 - cw }
          match processChildren children inner with
          | Except.error e => Except.error e
          | Except.ok ctx2 =>
              match translatePanels (ctx2.panels.drop before) ctx.currentX ctx.currentY cw with
              | Except.error e => Except.error e
              | Except.ok moved =>
                  Except.ok { ctx2 with
                    panels := ctx2.panels.take before ++ moved,
                    currentX := ctx.currentX + cw,
                    currentY := ctx.currentY,
                    rowMaxY := max ctx.rowMaxY (ctx.currentY + ctx2.rowMaxY),
                    rowPaddingLeft := ctx.rowPaddingLeft,
                    rowPaddingRight := ctx.rowPaddingRight }
  | Element.defaultsScope children, ctx => processChildren children ctx

/-- Visit a child list in document order, aborting on the first error. -/
def processChildren : List Element → RenderContext → Except String RenderContext
  | [], ctx => Except.ok ctx
  | e :: rest, ctx =>
      match processElement e ctx with
      | Except.ok ctx2 => processChildren rest ctx2
      | Except.error err => Except.error err

end

/-- The context created by `createContext` (cursor at the origin, id
counter at 1, empty accumulators). -/
def initialContext : RenderContext := ⟨1, 0, 0, 0, 0, 0, []⟩

/-- `render` restricted to its layout effect: process the dashboard's
children from the initial context and return the emitted panel records. -/
def render (children : List Element) : Except String (List Panel) :=
  match processChildren children initialContext with
  | Except.ok ctx => Except.ok ctx.panels
  | Except.error e => Except.error e

/-- The grid invariant claimed for emitted records. -/
def gridInvariant (p : Panel) : Prop :=
  0 ≤ p.gridPos.x ∧ p.gridPos.x + p.gridPos.w ≤ 24 ∧ 0 < p.gridPos.w ∧ 0 < p.gridPos.h

instance (p : Panel) : Decidable (gridInvariant p) :=
  inferInstanceAs
    (Decidable (0 ≤ p.gridPos.x ∧ p.gridPos.x + p.gridPos.w ≤ 24 ∧ 0 < p.gridPos.w ∧ 0 < p.gridPos.h))

/-- Invariant on the walker state: paddings are nonnegative, the cursor
never sits left of the left padding, and every emitted record satisfies
the grid invariant. -/
def ctxInv (ctx : RenderContext) : Prop :=
  0 ≤ ctx.rowPaddingLeft ∧ 0 ≤ ctx.rowPaddingRight ∧
  ctx.rowPaddingLeft ≤ ctx.currentX ∧
  ∀ p ∈ ctx.panels, gridInvariant p

mutual

/-- Well-formedness of an element under the available width `avail` of its
position in the tree: panels carry no raw `extend` override (which could
rewrite the computed rectangle arbitrarily), have positive (declared or
defaulted) dimensions, nonnegative margin, and fit the available width; rows have
nonnegative paddings and well-formed children under the row's available
width; containers are excluded (the code validates neither a container's
own placement nor its children's horizontal extent); defaults scopes
recurse. -/
def wfElement : Int → Element → Prop
  | avail, Element.panel _ width height marginLeft extend =>
      0 < width.getD 12 ∧ 0 < height.getD 8 ∧ 0 ≤ marginLeft.getD 0 ∧
      marginLeft.getD 0 + width.getD 12 ≤ avail ∧ extend = none
  | _, Element.row _ padding paddingLeft paddingRight children =>
      0 ≤ (paddingLeft <|> padding).getD 0 ∧ 0 ≤ (paddingRight <|> padding).getD 0 ∧
      wfChildren
        (24 - (paddingLeft <|> padding).getD 0 - (paddingRight <|> padding).getD 0) children
  | _, Element.container _ _ _ => False
  | avail, Element.defaultsScope children => wfChildren avail children

/-- Well-formedness of a child list under one available width. -/
def wfChildren : Int → List Element → Prop
  | _, [] => True
  | avail, e :: rest => wfElement avail e ∧ wfChildren avail rest

end

theorem lookupKey_setKey_self (m : DefMap) (k : String) (v : DefVal) :
    lookupKey (setKey m k v) k = some v := by
  induction m with
  | nil => simp [setKey, lookupKey]
  | cons p rest ih =>
      by_cases h : p.1 = k
      · simp [setKey, h, lookupKey]
      · simp [setKey, h, lookupKey, ih]

theorem lookupKey_setKey_other (m : DefMap) (k k' : String) (v : DefVal) (h : k ≠ k') :
    lookupKey (setKey m k v) k' = lookupKey m k' := by
  induction m with
  | nil => simp [setKey, lookupKey, h]
  | cons p rest ih =>
      by_cases hp : p.1 = k
      · simp [setKey, hp, lookupKey, h]
      · simp [setKey, hp, lookupKey, ih]

theorem lookupKey_delKey_self (m : DefMap) (k : String) :
    lookupKey (delKey m k) k = none := by
  induction m with
  | nil => simp [delKey, lookupKey]
  | cons p rest ih =>
      by_cases h : p.1 = k
      · simp [delKey, h, ih]
      · simp [delKey, h, lookupKey, ih]

theorem lookupKey_delKey_other (m : DefMap) (k k' : String) (h : k ≠ k') :
    lookupKey (delKey m k) k' = lookupKey m k' := by
  induction m with
  | nil => simp [delKey]
  | cons p rest ih =>
      by_cases hp : p.1 = k
      · simp [delKey, hp, lookupKey, h, ih]
      · simp [delKey, hp, lookupKey, ih]

theorem lookupKey_applyGlobals (g : DefMap) (m : DefMap) (k : String) :
    lookupKey (applyGlobals m g) k =
      match lastBinding g k with
      | some v => some v
      | none => lookupKey m k := by
  induction g generalizing m with
  | nil => simp [applyGlobals, lastBinding]
  | cons kv g ih =>
      show lookupKey (applyGlobals (setKey m kv.1 kv.2) g) k = _
      rw [ih]
      cases hb : lastBinding g k with
      | some v => simp [lastBinding, hb]
      | none =>
          by_cases hk : kv.1 = k
          · simp [lastBinding, hb, hk, hk ▸ lookupKey_setKey_self m kv.1 kv.2]
          · simp [lastBinding, hb, hk, lookupKey_setKey_other _ _ _ _ hk]

theorem lookupKey_applyOverrides (ov : DefMap) (m : DefMap) (k : String) :
    lookupKey (applyOverrides m ov) k =
      match lastBinding ov k with
      | some v => if v = DefVal.vnull then none else some v
      | none => lookupKey m k := by
  induction ov generalizing m with
  | nil => simp [applyOverrides, lastBinding]
  | cons kv ov ih =>
      show lookupKey (applyOverrides _ ov) k = _
      rw [ih]
      cases hb : lastBinding ov k with
      | some v => simp [lastBinding, hb]
      | none =>
          by_cases hk : kv.1 = k
          · by_cases hv : kv.2 = DefVal.vnull
            · simp [lastBinding, hb, hk, hv, hk ▸ lookupKey_delKey_self m kv.1]
            · simp [lastBinding, hb, hk, hv, hk ▸ lookupKey_setKey_self m kv.1 kv.2]
          · by_cases hv : kv.2 = DefVal.vnull
            · simp [lastBinding, hb, hk, hv, lookupKey_delKey_other _ _ _ hk]
            · simp [lastBinding, hb, hk, hv, lookupKey_setKey_other _ _ _ _ hk]

theorem lookupKey_globalFold (stack : List DefaultsLayer) (m : DefMap) (k : String) :
    lookupKey (globalFold m stack) k =
      match lastGlobalBinding stack k with
      | some v => some v
      | none => lookupKey m k := by
  induction stack generalizing m with
  | nil => simp [globalFold, lastGlobalBinding]
  | cons layer rest ih =>
      show lookupKey (globalFold (applyGlobals m layer.global) rest) k = _
      rw [ih]
      cases hb : lastGlobalBinding rest k with
      | some v => simp [lastGlobalBinding, hb]
      | none =>
          rw [lookupKey_applyGlobals]
          cases hg : lastBinding layer.global k with
          | some v => simp [lastGlobalBinding, hb, hg]
          | none => simp [lastGlobalBinding, hb, hg]

theorem lookupKey_specFold (stack : List DefaultsLayer) (pt : String) (m : DefMap) (k : String) :
    lookupKey (specFold pt m stack) k =
      match lastSpecificBinding stack pt k with
      | some v => if v = DefVal.vnull then none else some v
      | none => lookupKey m k := by
  induction stack generalizing m with
  | nil => simp [specFold, lastSpecificBinding]
  | cons layer rest ih =>
      show lookupKey (specFold pt _ rest) k = _
      rw [ih]
      cases hb : lastSpecificBinding rest pt k with
      | some v => simp [lastSpecificBinding, hb]
      | none =>
          cases hp : lookupPanels layer.panels pt with
          | some ov =>
              rw [lookupKey_applyOverrides]
              cases ho : lastBinding ov k with
              | some v => simp [lastSpecificBinding, hb, hp, ho]
              | none => simp [lastSpecificBinding, hb, hp, ho]
          | none => simp [lastSpecificBinding, hb, hp]

/-- C1: the claim as stated is false on the code.  Concrete input: a stack
of two layers where the outer (earlier-pushed) layer kind-specifically sets
`colorMode` for `stat` and the inner (later-pushed) layer sets `colorMode`
globally.  The claim says `resolve` returns the inner layer's global value;
the code returns the outer layer's kind-specific value, because the
kind-specific passes of *all* layers run after the global passes of *all*
layers. -/
theorem getCurrentDefaults_outer_specific_beats_inner_global :
    lookupKey
      (getCurrentDefaults
        [⟨[], [("stat", [("colorMode", DefVal.vstr "outer-specific")])]⟩,
         ⟨[("colorMode", DefVal.vstr "inner-global")], []⟩]
        (some "stat")) "colorMode" = some (DefVal.vstr "outer-specific") ∧
    lookupKey
      (getCurrentDefaults
        [⟨[], [("stat", [("colorMode", DefVal.vstr "outer-specific")])]⟩,
         ⟨[("colorMode", DefVal.vstr "inner-global")], []⟩]
        (some "stat")) "colorMode" ≠ some (DefVal.vstr "inner-global") := by
  constructor
  · rfl
  · decide

theorem lookupKey_getCurrentDefaults (stack : List DefaultsLayer) (pt k : String) :
    lookupKey (getCurrentDefaults stack (some pt)) k =
      match lastSpecificBinding stack pt k with
      | some v => if v = DefVal.vnull then none else some v
      | none =>
          match lastGlobalBinding stack k with
          | some v => some v
          | none => none := by
  show lookupKey (specFold pt (globalFold [] stack) stack) k = _
  rw [lookupKey_specFold]
  cases hb : lastSpecificBinding stack pt k with
  | some v => rfl
  | none =>
      rw [lookupKey_globalFold]
      cases hg : lastGlobalBinding stack k with
      | some v => rfl
      | none => simp [lookupKey]

/-- C1 (amended): precedence is specificity first, layer order second within
each specificity class.  Resolution of key `k` for panel type `pt` is fully
characterized: if any layer has a kind-specific binding for `(pt, k)`, the
newest such binding wins outright over every global binding (resolving to
nothing if that binding is `null`); only when no kind-specific binding
exists does the newest global binding apply.  Within a single layer a
kind-specific value still beats that layer's global value (a special case of
this characterization). -/
theorem getCurrentDefaults_resolution (stack : List DefaultsLayer) (pt k : String) :
    lookupKey (getCurrentDefaults stack (some pt)) k =
      match lastSpecificBinding stack pt k with
      | some v => if v = DefVal.vnull then none else some v
      | none =>
          match lastGlobalBinding stack k with
          | some v => some v
          | none => none :=
  lookupKey_getCurrentDefaults stack pt k

/-- C7: the claim as stated is false on the code.  Concrete input: a stack
of two layers, the first setting `fill` to `20` globally, the second setting
`fill` to `null` globally.  The claim says a `null` value at any layer
(global or kind-specific) removes the key from the resolved map; the code's
global pass assigns every defined value (`null` included), so the resolved
map still contains `fill`, bound to a visible `null`, and does not fall
through to the lower layer's `20`. -/
theorem getCurrentDefaults_global_null_is_visible :
    lookupKey
      (getCurrentDefaults
        [⟨[("fill", DefVal.vnum 20)], []⟩, ⟨[("fill", DefVal.vnull)], []⟩]
        (some "stat")) "fill" = some DefVal.vnull ∧
    lookupKey
      (getCurrentDefaults
        [⟨[("fill", DefVal.vnum 20)], []⟩, ⟨[("fill", DefVal.vnull)], []⟩]
        (some "stat")) "fill" ≠ none := by
  constructor
  · rfl
  · decide

/-- C7 (amended): a `null` value removes a key from the resolved map only
when it appears in a layer's kind-specific sub-map — and then it removes the
key outright, regardless of what any layer binds globally — while a `null`
at a layer's global level is assigned into the resolved map as a visible
`null` (provided no kind-specific binding supersedes it). -/
theorem getCurrentDefaults_null_handling (stack : List DefaultsLayer) (pt k : String) :
    (lastSpecificBinding stack pt k = some DefVal.vnull →
      lookupKey (getCurrentDefaults stack (some pt)) k = none) ∧
    (lastGlobalBinding stack k = some DefVal.vnull →
      lastSpecificBinding stack pt k = none →
      lookupKey (getCurrentDefaults stack (some pt)) k = some DefVal.vnull) := by
  constructor
  · intro hs
    rw [lookupKey_getCurrentDefaults, hs]
    rfl
  · intro hg hs
    rw [lookupKey_getCurrentDefaults, hs, hg]

/-- C7 witness: the amended statement applied at a concrete stack.  The
layer `{panels.stat.fill = null}` removes `fill` even though a lower layer
sets it globally, and a global `null` for `lineWidth` stays visible. -/
theorem getCurrentDefaults_null_handling_witness :
    (lastSpecificBinding
        [⟨[("fill", DefVal.vnum 20)], [("stat", [("fill", DefVal.vnull)])]⟩]
        "stat" "fill" = some DefVal.vnull) ∧
    lookupKey
      (getCurrentDefaults
        [⟨[("fill", DefVal.vnum 20)], [("stat", [("fill", DefVal.vnull)])]⟩]
        (some "stat")) "fill" = none := by
  refine ⟨by decide, ?_⟩
  exact (getCurrentDefaults_null_handling
      [⟨[("fill", DefVal.vnum 20)], [("stat", [("fill", DefVal.vnull)])]⟩]
      "stat" "fill").1 (by decide)

theorem insertByKey_head (p : Int × String) (l : List (Int × String)) :
    (insertByKey p l).head? = some p ∨ (insertByKey p l).head? = l.head? := by
  cases l with
  | nil => left; rfl
  | cons q rest =>
      by_cases h : p.1 < q.1
      · left; simp [insertByKey, h]
      · right; simp [insertByKey, h]

theorem chain_insertByKey (p : Int × String) (l : List (Int × String))
    (h : List.Chain' (fun a b => a.1 ≤ b.1) l) :
    List.Chain' (fun a b => a.1 ≤ b.1) (insertByKey p l) := by
  induction l with
  | nil => simp [insertByKey]
  | cons q rest ih =>
      by_cases hlt : p.1 < q.1
      · simp only [insertByKey, hlt, if_true]
        exact List.chain'_cons.mpr ⟨le_of_lt hlt, h⟩
      · have h' := List.chain'_cons'.mp h
        simp only [insertByKey, hlt, if_false]
        rw [List.chain'_cons']
        constructor
        · intro b hb
          rcases insertByKey_head p rest with hh | hh
          · rw [hh] at hb
            simp only [Option.mem_def, Option.some.injEq] at hb
            subst hb
            exact le_of_not_lt hlt
          · rw [hh] at hb
            exact h'.1 b hb
        · exact ih h'.2

theorem sortByKey_chain (l : List (Int × String)) :
    List.Chain' (fun a b => a.1 ≤ b.1) (sortByKey l) := by
  induction l with
  | nil => simp [sortByKey]
  | cons p rest ih => exact chain_insertByKey p (sortByKey rest) ih

theorem normalizeThresholds_mapSpec_ascending (entries : List (Int × String)) (b : String) :
    stepsAscending (normalizeThresholds (ThresholdSpec.mapSpec entries) b) := by
  unfold stepsAscending normalizeThresholds
  simp only [List.filterMap_cons, List.filterMap_map]
  have hc : (ThresholdStep.value ∘ fun p : Int × String =>
      (⟨some p.1, normalizeColor p.2⟩ : ThresholdStep)) = fun p => some p.1 := rfl
  rw [hc]
  have hm : (List.filterMap (fun p : Int × String => some p.1) (sortByKey entries)) =
      (sortByKey entries).map (fun p => p.1) := List.filterMap_eq_map _ ▸ rfl
  rw [hm, List.chain'_map]
  exact sortByKey_chain entries

/-- C8: the claim as stated is false on the code.  Concrete input: the pair
list `[[90, "red"], [70, "yellow"]]`.  The claim says the breakpoints are
returned sorted ascending by numeric value for every threshold input; the
code sorts only the object (map) form and emits the array (pair-list) form
in given order, so the result here is descending. -/
theorem normalizeThresholds_pairs_not_sorted :
    normalizeThresholds (ThresholdSpec.pairsSpec [(90, "red"), (70, "yellow")]) "green" =
      [⟨none, "green"⟩, ⟨some 90, "red"⟩, ⟨some 70, "#EAB839"⟩] ∧
    ¬ stepsAscending
        (normalizeThresholds (ThresholdSpec.pairsSpec [(90, "red"), (70, "yellow")]) "green") := by
  constructor
  · rfl
  · intro h
    have h' : List.Chain' (fun a b : Int => a ≤ b) [(90 : Int), 70] := h
    have hle := (List.chain'_cons.mp h').1
    omega

/-- C8 (amended): the threshold normalizer returns a step list starting
with the sentinel base step (`value = null`, the normalized base color);
for a *map* input the breakpoints follow sorted ascending by numeric value,
while for a *pair-list* input they follow in the given order; every color is
passed through the color normalizer.  In particular the map
`{70: "yellow", 90: "red"}` with base color green yields
`[{null,"green"},{70,"#EAB839"},{90,"red"}]`. -/
theorem normalizeThresholds_shape (entries : List (Int × String)) (b : String) :
    (normalizeThresholds (ThresholdSpec.mapSpec entries) b =
      ⟨none, normalizeColor b⟩ ::
        (sortByKey entries).map (fun p => ⟨some p.1, normalizeColor p.2⟩) ∧
     stepsAscending (normalizeThresholds (ThresholdSpec.mapSpec entries) b)) ∧
    (normalizeThresholds (ThresholdSpec.pairsSpec entries) b =
      ⟨none, normalizeColor b⟩ :: entries.map (fun p => ⟨some p.1, normalizeColor p.2⟩)) ∧
    normalizeThresholds (ThresholdSpec.mapSpec [(70, "yellow"), (90, "red")]) "green" =
      [⟨none, "green"⟩, ⟨some 70, "#EAB839"⟩, ⟨some 90, "red"⟩] := by
  refine ⟨⟨rfl, normalizeThresholds_mapSpec_ascending entries b⟩, rfl, rfl⟩

theorem tableLookup_mem (l : List (String × String)) (k v : String)
    (h : tableLookup l k = some v) : v ∈ l.map Prod.snd := by
  induction l with
  | nil => simp [tableLookup] at h
  | cons p rest ih =>
      by_cases hp : p.1 = k
      · simp [tableLookup, hp] at h
        simp [h]
      · simp [tableLookup, hp] at h
        simp [ih h]

theorem normalizeColor_idem (s : String) :
    normalizeColor (normalizeColor s) = normalizeColor s := by
  cases h : tableLookup colorTable s with
  | none =>
      have hs : normalizeColor s = s := by simp [normalizeColor, h]
      rw [hs]
      exact hs
  | some v =>
      have hs : normalizeColor s = v := by simp [normalizeColor, h]
      have hfix : ∀ w ∈ colorTable.map Prod.snd, normalizeColor w = w := by decide
      rw [hs]
      exact hfix v (tableLookup_mem _ _ _ h)

/-- C9: the claim as stated is false on the code.  Concrete input: an
absent (`undefined`) threshold specification.  `normalizeThresholds`
returns the one-element base step list; running the normalizer again on
that output takes the array branch, which reads `item[0]`/`item[1]` of the
step *record* and appends a second, malformed step
(`{value: undefined, color: undefined}`), so
`normalize(normalize(x)) ≠ normalize(x)`. -/
theorem normalizeThresholds_not_idempotent :
    normalizeThresholdsJs (normalizeThresholdsJs JsVal.undefined "green") "green" ≠
      normalizeThresholdsJs JsVal.undefined "green" := by
  intro h
  have h2 : jsArrLength
      (normalizeThresholdsJs (normalizeThresholdsJs JsVal.undefined "green") "green") = 2 := rfl
  have h1 : jsArrLength (normalizeThresholdsJs JsVal.undefined "green") = 1 := rfl
  rw [h, h1] at h2
  exact absurd h2 (by decide)

/-- C9 (amended): every value normalizer except the threshold normalizer is
idempotent — re-normalizing its own returned value (fed back as an input
value, which is what re-application means in JS) is a no-op — for the
color, legend, tooltip, reduce-options, line-style and scale-distribution
normalizers; the threshold normalizer is the exception (its output is not
among its input shapes). -/
theorem normalizers_idempotent :
    (∀ s : String, normalizeColor (normalizeColor s) = normalizeColor s) ∧
    (∀ x : LegendSpec, normalizeLegend (legendOutAsSpec (normalizeLegend x)) = normalizeLegend x) ∧
    (∀ x : TooltipSpec,
      normalizeTooltip (tooltipOutAsSpec (normalizeTooltip x)) = normalizeTooltip x) ∧
    (∀ x : ReduceSpec,
      normalizeReduceOptions (reduceOutAsSpec (normalizeReduceOptions x)) =
        normalizeReduceOptions x) ∧
    (∀ x : LineStyleSpec,
      normalizeLineStyle (lineStyleOutAsSpec (normalizeLineStyle x)) = normalizeLineStyle x) ∧
    (∀ x : ScaleSpec,
      normalizeScaleDistribution (scaleOutAsSpec (normalizeScaleDistribution x)) =
        normalizeScaleDistribution x) := by
  refine ⟨?_, ?_, ?_, ?_, ?_, ?_⟩
  · exact normalizeColor_idem
  · intro x; cases x <;> rfl
  · intro x; cases x <;> rfl
  · intro x; cases x <;> rfl
  · intro x; cases x <;> rfl
  · intro x; cases x <;> rfl

/-- C10: within one panel's target extraction the automatic reference-id
counter advances exactly once per target emitted without an explicit
`refId` (explicit ids are never recorded by it), and consequently a query
child with explicit `refId` "A" followed by a plain string query emits two
targets of the same panel with the same reference id "A". -/
theorem extractTargets_counter :
    (∀ (children : List PanelChild) (c : Nat),
      (extractTargetsGo children c).2 = c + autoCount children) ∧
    extractTargets [PanelChild.query (some "A") "up", PanelChild.text "down"] =
      [⟨"A", "up"⟩, ⟨"A", "down"⟩] := by
  constructor
  · intro children
    induction children with
    | nil => intro c; simp [extractTargetsGo, autoCount]
    | cons child rest ih =>
        intro c
        cases child with
        | text s =>
            by_cases h : jsTrim s = ""
            · simp [extractTargetsGo, autoCount, h, ih]
            · simp [extractTargetsGo, autoCount, h, ih]
              omega
        | query refId raw =>
            by_cases h : jsTrim raw = ""
            · simp [extractTargetsGo, autoCount, h, ih]
            · cases refId with
              | none =>
                  simp [extractTargetsGo, autoCount, h, ih]
                  omega
              | some r => simp [extractTargetsGo, autoCount, h, ih]
        | other => simp [extractTargetsGo, autoCount, ih]
  · decide

/-- C2: a panel placed without explicit coordinates whose placement would
cross the horizontal boundary (cursor progress on the row plus its width
exceeding the available width) starts a new row at `x = paddingLeft`,
`y = rowMaxY` (the maximum bottom edge of the previous row); and the
concrete scenario: three width-12 panels on the 24-wide grid — the first
two share row 0 at x=0 and x=12, the third wraps to x=0, y=8 (the default
height). -/
theorem panel_wrap :
    (∀ (ctx : RenderContext) (title : String) (width height : Option Int),
      ctx.currentX - ctx.rowPaddingLeft + width.getD 12 >
          24 - ctx.rowPaddingLeft - ctx.rowPaddingRight →
      (buildBasePanel ctx title width height none).1.gridPos.x = ctx.rowPaddingLeft ∧
      (buildBasePanel ctx title width height none).1.gridPos.y = ctx.rowMaxY) ∧
    render [Element.panel "a" (some 12) none none none,
            Element.panel "b" (some 12) none none none,
            Element.panel "c" (some 12) none none none] =
      Except.ok [⟨1, "a", false, ⟨0, 0, 12, 8⟩⟩, ⟨2, "b", false, ⟨12, 0, 12, 8⟩⟩,
                 ⟨3, "c", false, ⟨0, 8, 12, 8⟩⟩] := by
  constructor
  · intro ctx title width height h
    have hc : 24 - ctx.rowPaddingLeft - ctx.rowPaddingRight <
        ctx.currentX - ctx.rowPaddingLeft + width.getD 12 := by omega
    constructor <;> simp [buildBasePanel, hc]
  · rfl

/-- C2 witness: the wrap rule applied at a concrete cursor (x = 24 after
two width-12 panels, rowMaxY = 8): the third width-12 panel lands at
(0, 8). -/
theorem panel_wrap_witness :
    ((24 : Int) - 0 + (Option.getD (some 12) 12) > 24 - 0 - 0) ∧
    (buildBasePanel ⟨3, 24, 0, 8, 0, 0, []⟩ "c" (some 12) none none).1.gridPos.x = 0 ∧
    (buildBasePanel ⟨3, 24, 0, 8, 0, 0, []⟩ "c" (some 12) none none).1.gridPos.y = 8 := by
  refine ⟨by decide, ?_, ?_⟩
  · exact (panel_wrap.1 ⟨3, 24, 0, 8, 0, 0, []⟩ "c" (some 12) none (by decide)).1
  · exact (panel_wrap.1 ⟨3, 24, 0, 8, 0, 0, []⟩ "c" (some 12) none (by decide)).2

/-- C4: a row with padding=2 containing width-10 panels emits the
full-width structural record (w=24, h=1) at (0, 0) and places the first
panel at x=2, the second at x=12 on y=1, the third wrapping to x=2, y=9;
and in general row entry appends exactly the structural record at
(0, finalized currentY) and sets `rowPaddingLeft`/`rowPaddingRight` from
`paddingLeft`/`paddingRight`, each defaulting to the single `padding` prop,
with `currentX = paddingLeft`. -/
theorem row_padding_layout :
    render [Element.row "r" (some 2) none none
      [Element.panel "a" (some 10) none none none,
       Element.panel "b" (some 10) none none none,
       Element.panel "c" (some 10) none none none]] =
      Except.ok [⟨1, "r", true, ⟨0, 0, 24, 1⟩⟩, ⟨2, "a", false, ⟨2, 1, 10, 8⟩⟩,
                 ⟨3, "b", false, ⟨12, 1, 10, 8⟩⟩, ⟨4, "c", false, ⟨2, 9, 10, 8⟩⟩] ∧
    (∀ (ctx : RenderContext) (title : String) (padding paddingLeft paddingRight : Option Int),
      (rowEntry ctx title padding paddingLeft paddingRight).rowPaddingLeft =
        (paddingLeft <|> padding).getD 0 ∧
      (rowEntry ctx title padding paddingLeft paddingRight).rowPaddingRight =
        (paddingRight <|> padding).getD 0 ∧
      (rowEntry ctx title padding paddingLeft paddingRight).currentX =
        (paddingLeft <|> padding).getD 0 ∧
      (rowEntry ctx title padding paddingLeft paddingRight).panels =
        ctx.panels ++ [⟨ctx.panelId, title, true, ⟨0, ctx.rowMaxY, 24, 1⟩⟩]) := by
  exact ⟨rfl, fun ctx title padding pl pr => ⟨rfl, rfl, rfl, rfl⟩⟩

/-- C5: at container exit every record produced during the container's
children is translated by (+containerX, +containerY) when all their widths
fit the container width, and a record whose width exceeds the container
width aborts the whole compile with the hard error naming the offending
panel by title — never silently clipped.  Concretely, a width-12 panel in a
width-10 container is a compile error naming the panel, and a width-6 panel
in a width-10 container placed after a width-6 panel is translated by
(+6, +0). -/
theorem container_exit_translation :
    (∀ (ps : List Panel) (cx cy cw : Int),
      (∀ p ∈ ps, p.gridPos.w ≤ cw) →
      translatePanels ps cx cy cw = Except.ok (ps.map (translatePanel cx cy))) ∧
    (∀ (ps : List Panel) (cx cy cw : Int) (p : Panel),
      p ∈ ps → cw < p.gridPos.w →
      ∃ q ∈ ps, cw < q.gridPos.w ∧
        translatePanels ps cx cy cw = Except.error (widthErrorMsg q.title q.gridPos.w cw)) ∧
    render [Element.container (some 10) false
        [Element.panel "Wide" (some 12) none none none]] =
      Except.error (widthErrorMsg "Wide" 12 10) ∧
    render [Element.panel "a" (some 6) (some 4) none none,
            Element.container (some 10) false
              [Element.panel "b" (some 6) none none none]] =
      Except.ok [⟨1, "a", false, ⟨0, 0, 6, 4⟩⟩, ⟨2, "b", false, ⟨6, 0, 6, 8⟩⟩] := by
  refine ⟨?_, ?_, rfl, rfl⟩
  · intro ps cx cy cw h
    induction ps with
    | nil => rfl
    | cons p rest ih =>
        have hp : ¬ p.gridPos.w > cw := by
          have := h p (List.mem_cons_self p rest)
          omega
        have hrest := ih (fun q hq => h q (List.mem_cons_of_mem p hq))
        simp [translatePanels, hp, hrest]
  · intro ps cx cy cw p hp hw
    induction ps with
    | nil => simp at hp
    | cons q rest ih =>
        by_cases hq : q.gridPos.w > cw
        · exact ⟨q, List.mem_cons_self q rest, hq, by simp [translatePanels, hq]⟩
        · have hpr : p ∈ rest := by
            rcases List.mem_cons.mp hp with h1 | h1
            · subst h1; omega
            · exact h1
          rcases ih hpr with ⟨q', hq', hqw, herr⟩
          refine ⟨q', List.mem_cons_of_mem q hq', hqw, ?_⟩
          simp [translatePanels, hq, herr]

/-- C5 witness: the translation branch applied at the concrete child list
of the success scenario (one width-6 record, container of width 10 at
x = 6). -/
theorem container_exit_translation_witness :
    translatePanels [⟨2, "b", false, ⟨0, 0, 6, 8⟩⟩] 6 0 10 =
      Except.ok [⟨2, "b", false, ⟨6, 0, 6, 8⟩⟩] := by
  have h := container_exit_translation.1 [⟨2, "b", false, ⟨0, 0, 6, 8⟩⟩] 6 0 10 (by decide)
  simpa [translatePanel] using h

/-- C6: the claim as stated is false on the code.  Concrete input: a
container with both a fixed width (10) and the fill flag set.  The claim
says compilation aborts whenever both are present; the code checks `fill`
first and silently uses it (compilation succeeds), so only the
absence-of-both case aborts. -/
theorem container_both_width_and_fill_compiles :
    render [Element.container (some 10) true []] = Except.ok [] := rfl

/-- C6 (amended): a container with neither a fixed width nor fill aborts
the compile with the structural error; when `fill` is set it resolves to
the remaining width from `currentX` to `24 − paddingRight` — even when a
fixed width is also present, `fill` silently wins — and otherwise the fixed
width is used. -/
theorem containerWidthOf_resolution :
    (∀ (ctx : RenderContext), containerWidthOf none false ctx =
      Except.error "Container must have either width or fill prop") ∧
    (∀ (ctx : RenderContext) (width : Option Int), containerWidthOf width true ctx =
      Except.ok (24 - ctx.rowPaddingRight - ctx.currentX)) ∧
    (∀ (ctx : RenderContext) (w : Int), containerWidthOf (some w) false ctx = Except.ok w) ∧
    (∀ (children : List Element) (ctx : RenderContext),
      processElement (Element.container none false children) ctx =
        Except.error "Container must have either width or fill prop") :=
  ⟨fun _ => rfl, fun _ _ => rfl, fun _ _ => rfl, fun _ _ => rfl⟩

/-- C3: the claim as stated is false on the code, twice over.  First
concrete input: a single panel declaring width 30 — nothing validates a
panel's width against the grid outside containers, so the compile succeeds
and the emitted record has x + w = 30 > 24.  Second concrete input: a
width-6 panel whose raw `extend` override rewrites `gridPos.w` to 30 —
`addPanel` deep-merges `extend` over the fully built record, so the emitted
record again has x + w = 30 > 24.  Both compiles succeed, violating the
claimed invariant. -/
theorem grid_invariant_violated :
    (render [Element.panel "Wide" (some 30) none none none] =
       Except.ok [⟨1, "Wide", false, ⟨0, 0, 30, 8⟩⟩] ∧
     ¬ gridInvariant ⟨1, "Wide", false, ⟨0, 0, 30, 8⟩⟩) ∧
    (render [Element.panel "a" (some 6) none none (some ⟨none, none, some 30, none⟩)] =
       Except.ok [⟨1, "a", false, ⟨0, 0, 30, 8⟩⟩] ∧
     ¬ gridInvariant ⟨1, "a", false, ⟨0, 0, 30, 8⟩⟩) := by
  exact ⟨⟨rfl, by decide⟩, ⟨rfl, by decide⟩⟩

theorem panel_step_inv (ctx : RenderContext) (title : String)
    (width height marginLeft : Option Int) (A : Int)
    (hinv : ctxInv ctx) (hA : A ≤ 24 - ctx.rowPaddingLeft - ctx.rowPaddingRight)
    (hw : 0 < width.getD 12) (hh : 0 < height.getD 8) (hm : 0 ≤ marginLeft.getD 0)
    (hfit : marginLeft.getD 0 + width.getD 12 ≤ A) :
    ctxInv (addPanel (buildBasePanel ctx title width height marginLeft).2
              (buildBasePanel ctx title width height marginLeft).1 none) ∧
    (addPanel (buildBasePanel ctx title width height marginLeft).2
       (buildBasePanel ctx title width height marginLeft).1 none).rowPaddingLeft =
      ctx.rowPaddingLeft ∧
    (addPanel (buildBasePanel ctx title width height marginLeft).2
       (buildBasePanel ctx title width height marginLeft).1 none).rowPaddingRight =
      ctx.rowPaddingRight := by
  obtain ⟨hpl, hpr, hplx, hpanels⟩ := hinv
  by_cases hcond : 24 - ctx.rowPaddingLeft - ctx.rowPaddingRight <
      ctx.currentX - ctx.rowPaddingLeft + marginLeft.getD 0 + width.getD 12
  · refine ⟨⟨?_, ?_, ?_, ?_⟩, ?_, ?_⟩ <;>
      simp only [buildBasePanel, addPanel, applyExtend, updatePosition, hcond, if_true,
        gt_iff_lt, ite_true]
    · exact hpl
    · exact hpr
    · omega
    · intro p hp
      rcases List.mem_append.mp hp with hold | hnew
      · exact hpanels p hold
      · rcases List.mem_singleton.mp hnew with rfl
        exact ⟨by dsimp only; omega, by dsimp only; omega, hw, hh⟩
  · refine ⟨⟨?_, ?_, ?_, ?_⟩, ?_, ?_⟩ <;>
      simp only [buildBasePanel, addPanel, applyExtend, updatePosition, hcond, if_false,
        gt_iff_lt, ite_false]
    · exact hpl
    · exact hpr
    · omega
    · intro p hp
      rcases List.mem_append.mp hp with hold | hnew
      · exact hpanels p hold
      · rcases List.mem_singleton.mp hnew with rfl
        exact ⟨by dsimp only; omega, by dsimp only; omega, hw, hh⟩

theorem rowEntry_inv (ctx : RenderContext) (title : String)
    (padding paddingLeft paddingRight : Option Int)
    (hinv : ctxInv ctx)
    (hl : 0 ≤ (paddingLeft <|> padding).getD 0)
    (hr : 0 ≤ (paddingRight <|> padding).getD 0) :
    ctxInv (rowEntry ctx title padding paddingLeft paddingRight) := by
  obtain ⟨hpl, hpr, hplx, hpanels⟩ := hinv
  refine ⟨hl, hr, le_refl _, ?_⟩
  intro p hp
  simp only [rowEntry, buildRowPanel] at hp
  rcases List.mem_append.mp hp with hold | hnew
  · exact hpanels p hold
  · rcases List.mem_singleton.mp hnew with rfl
    exact ⟨by dsimp only; omega, by dsimp only; omega, by dsimp only; omega, by dsimp only; omega⟩

theorem rowExit_inv (ctx : RenderContext) (hinv : ctxInv ctx) : ctxInv (rowExit ctx) :=
  ⟨le_refl 0, le_refl 0, le_refl 0, hinv.2.2.2⟩

mutual

/-- Inductive invariant: processing one well-formed (container-free)
element from a state satisfying `ctxInv`, with the element's assumed
available width no larger than the actual one, preserves `ctxInv`; the
padding afterwards is either unchanged or reset to zero. -/
theorem processElement_inv (e : Element) (ctx : RenderContext) (A : Int)
    (ctx' : RenderContext) (hinv : ctxInv ctx)
    (hA : A ≤ 24 - ctx.rowPaddingLeft - ctx.rowPaddingRight) (hwf : wfElement A e)
    (hok : processElement e ctx = Except.ok ctx') :
    ctxInv ctx' ∧
    ((ctx'.rowPaddingLeft = ctx.rowPaddingLeft ∧
      ctx'.rowPaddingRight = ctx.rowPaddingRight) ∨
     (ctx'.rowPaddingLeft = 0 ∧ ctx'.rowPaddingRight = 0)) := by
  cases e with
  | panel title width height marginLeft extend =>
      obtain ⟨hw, hh, hm, hfit, hext⟩ := hwf
      subst hext
      have hstep := panel_step_inv ctx title width height marginLeft A hinv hA hw hh hm hfit
      have hctx' : ctx' = addPanel (buildBasePanel ctx title width height marginLeft).2
          (buildBasePanel ctx title width height marginLeft).1 none := by
        have := hok
        simp only [processElement] at this
        exact (Except.ok.injEq _ _).mp this.symm ▸ rfl
      rw [hctx']
      exact ⟨hstep.1, Or.inl ⟨hstep.2.1, hstep.2.2⟩⟩
  | row title padding paddingLeft paddingRight children =>
      obtain ⟨hl, hr, hwfc⟩ := hwf
      simp only [processElement] at hok
      cases hpc : processChildren children (rowEntry ctx title padding paddingLeft paddingRight) with
      | error e =>
          rw [hpc] at hok
          exact absurd hok (by simp)
      | ok ctx2 =>
          rw [hpc] at hok
          have hctx' : ctx' = rowExit ctx2 := by
            simpa using hok.symm
          have hinv1 := rowEntry_inv ctx title padding paddingLeft paddingRight hinv hl hr
          have hA1 : 24 - (paddingLeft <|> padding).getD 0 - (paddingRight <|> padding).getD 0 ≤
              24 - (rowEntry ctx title padding paddingLeft paddingRight).rowPaddingLeft -
                (rowEntry ctx title padding paddingLeft paddingRight).rowPaddingRight := by
            simp [rowEntry]
          have hrec := processChildren_inv children
            (rowEntry ctx title padding paddingLeft paddingRight)
            (24 - (paddingLeft <|> padding).getD 0 - (paddingRight <|> padding).getD 0)
            ctx2 hinv1 hA1 hwfc hpc
          rw [hctx']
          exact ⟨rowExit_inv ctx2 hrec.1, Or.inr ⟨rfl, rfl⟩⟩
  | container width fill children => exact absurd hwf (by simp [wfElement])
  | defaultsScope children =>
      exact processChildren_inv children ctx A ctx' hinv hA hwf hok

/-- Inductive invariant for a child list, as for `processElement_inv`. -/
theorem processChildren_inv (children : List Element) (ctx : RenderContext) (A : Int)
    (ctx' : RenderContext) (hinv : ctxInv ctx)
    (hA : A ≤ 24 - ctx.rowPaddingLeft - ctx.rowPaddingRight) (hwf : wfChildren A children)
    (hok : processChildren children ctx = Except.ok ctx') :
    ctxInv ctx' ∧
    ((ctx'.rowPaddingLeft = ctx.rowPaddingLeft ∧
      ctx'.rowPaddingRight = ctx.rowPaddingRight) ∨
     (ctx'.rowPaddingLeft = 0 ∧ ctx'.rowPaddingRight = 0)) := by
  cases children with
  | nil =>
      simp only [processChildren] at hok
      have : ctx' = ctx := by simpa using hok.symm
      rw [this]
      exact ⟨hinv, Or.inl ⟨rfl, rfl⟩⟩
  | cons e rest =>
      obtain ⟨hwfe, hwfr⟩ := hwf
      simp only [processChildren] at hok
      cases hpe : processElement e ctx with
      | error err =>
          rw [hpe] at hok
          exact absurd hok (by simp)
      | ok ctx2 =>
          rw [hpe] at hok
          have hstep := processElement_inv e ctx A ctx2 hinv hA hwfe hpe
          have hA2 : A ≤ 24 - ctx2.rowPaddingLeft - ctx2.rowPaddingRight := by
            rcases hstep.2 with ⟨h1, h2⟩ | ⟨h1, h2⟩ <;>
              · rw [h1, h2]
                first
                  | exact hA
                  | (obtain ⟨hpl, hpr, -, -⟩ := hinv; omega)
          have hrest := processChildren_inv rest ctx2 A ctx' hstep.1 hA2 hwfr hok
          refine ⟨hrest.1, ?_⟩
          rcases hrest.2 with ⟨h1, h2⟩ | h0
          · rcases hstep.2 with ⟨g1, g2⟩ | g0
            · exact Or.inl ⟨h1.trans g1, h2.trans g2⟩
            · exact Or.inr ⟨h1.trans g0.1, h2.trans g0.2⟩
          · exact Or.inr h0

end

/-- C3 (amended): for every container-free input tree whose panels carry no
raw `extend` override and have positive (declared or defaulted) width and
height, nonnegative margin, and fit the available width of their position
(24 minus the enclosing row's paddings), and whose rows have nonnegative
paddings, every record emitted by a successful compile satisfies the grid
invariant `0 ≤ x`, `x + w ≤ 24`, `w > 0`, `h > 0`.  (The restrictions are
necessary: the code validates neither a top-level panel's width against the
grid nor an `extend`-rewritten rectangle — see the counterexample — nor a
container's own placement or its children's horizontal extent.) -/
theorem grid_invariant_wf (children : List Element) (ps : List Panel)
    (hwf : wfChildren 24 children) (h : render children = Except.ok ps) :
    ∀ p ∈ ps, gridInvariant p := by
  unfold render at h
  cases hpc : processChildren children initialContext with
  | error e =>
      rw [hpc] at h
      exact absurd h (by simp)
  | ok ctx =>
      rw [hpc] at h
      have hps : ps = ctx.panels := by simpa using h.symm
      have hinit : ctxInv initialContext :=
        ⟨le_refl 0, le_refl 0, le_refl 0, by intro p hp; simp [initialContext] at hp⟩
      have hA : (24 : Int) ≤ 24 - initialContext.rowPaddingLeft -
          initialContext.rowPaddingRight := by norm_num [initialContext]
      have := processChildren_inv children initialContext 24 ctx hinit hA hwf hpc
      rw [hps]
      exact this.1.2.2.2

/-- C3 witness: the invariant theorem applied to a concrete well-formed
tree (one width-6 panel). -/
theorem grid_invariant_wf_witness :
    gridInvariant ⟨1, "a", false, ⟨0, 0, 6, 8⟩⟩ :=
  grid_invariant_wf [Element.panel "a" (some 6) none none none]
    [⟨1, "a", false, ⟨0, 0, 6, 8⟩⟩]
    ⟨⟨by norm_num, by norm_num, by norm_num, by norm_num, rfl⟩, trivial⟩ rfl
    ⟨1, "a", false, ⟨0, 0, 6, 8⟩⟩ (List.mem_singleton.mpr rfl)

end GrafanaReact
